import Mathlib

set_option maxRecDepth 4000

/-!
Verification of the JSON-RPC message transport of fmodsilo-vscode
(src/extension.ts, lines 2041-2243): the streaming frame decoder
`onMessageReceived`, the frame encoder shared by `sendRequest`,
`sendNotification` and `sendResponse`, and the classifier/dispatcher
`interpretMessage` together with the pending-request ledger.
Strings are modelled as lists of characters; both the encoder's length
computation and the decoder's per-character scan use the same unit, as in
the source where both operate on JavaScript string indices.
-/

namespace FModSilo

/-- Parse stage of the streaming frame decoder: `header` is `msgStage = 0`
(scanning the Content-Length line), `headerEnd` is `msgStage = 1` (scanning
further header lines up to the blank separator), `body` is `msgStage = 2`
(counting body characters).  From extension.ts lines 2045 and 2177-2241;
`msgStage` only ever holds 0, 1 or 2. -/
inductive Stage
  | header
  | headerEnd
  | body
deriving DecidableEq

/-- Decoder state: the module-level mutable variables of extension.ts,
lines 2044-2048.  `awaitLength = none` models the JavaScript value NaN,
which `+received.substring(...)` produces on a non-numeric length field;
`some n` models the number `n`. -/
structure DecState where
  msgStage : Stage
  readLength : Nat
  received : List Char
  awaitLength : Option Nat
deriving DecidableEq

/-- The constant `contentLength` of extension.ts line 2043:
the length of the string "Content-Length: ", namely 16. -/
def contentLengthConst : Nat := "Content-Length: ".length

/-- JavaScript `String.prototype.substring` on a list of characters: both
indices are clamped to the interval from 0 to the length and swapped when
given out of order. -/
def jsSubstring (s : List Char) (a b : Int) : List Char :=
  let n : Int := s.length
  let a' := max (min a n) 0
  let b' := max (min b n) 0
  (s.take (max a' b').toNat).drop (min a' b').toNat

/-- Whether a character is a decimal digit. -/
def isDigitChar (c : Char) : Bool := '0' ≤ c && c ≤ '9'

/-- Value of a string of decimal digits read left to right. -/
def digitsVal (cs : List Char) : Nat :=
  cs.foldl (fun a c => a * 10 + (c.toNat - 48)) 0

/-- JavaScript unary plus applied to a string (extension.ts line 2183),
restricted to the two classes of header values this transport can meet: a
string of decimal digits (possibly empty; the empty string coerces to 0)
yields its value, and a string containing a non-digit yields NaN, modelled
as `none`.  JavaScript additionally accepts signs, surrounding whitespace,
decimal points and hex prefixes; no such form is produced by the peer
encoder, and any non-integer or negative value compares unequal to the
integer byte counter exactly as `none` does here. -/
def jsToNumber (cs : List Char) : Option Nat :=
  if cs.all isDigitChar then some (digitsVal cs) else none

/-- One character of the decoder loop of `onMessageReceived`
(extension.ts lines 2174-2242).  In stage `header` (lines 2177-2195) a
newline parses the length out of the accumulated line, dropping the first
16 characters and the final character (the carriage return of a CRLF
terminator); any other character is accumulated.  In stage `headerEnd`
(lines 2196-2219) a newline moves to `body` exactly when the accumulated
line has length 1, else it clears the line; other characters accumulate.
In stage `body` (lines 2220-2241) the character is appended and counted,
and when the counter reaches `awaitLength` the body is emitted as a decoded
payload and the stage returns to `header`. -/
def stepChar (st : DecState) (c : Char) : DecState × Option (List Char) :=
  match st.msgStage with
  | .header =>
    if c = '\n' then
      ({ msgStage := .headerEnd, readLength := st.readLength, received := [],
         awaitLength := jsToNumber (jsSubstring st.received (contentLengthConst : Int)
           ((st.received.length : Int) - 1)) }, none)
    else
      ({ st with received := st.received ++ [c] }, none)
  | .headerEnd =>
    if c = '\n' then
      if st.received.length = 1 then
        ({ st with msgStage := .body, received := [] }, none)
      else
        ({ st with received := [] }, none)
    else
      ({ st with received := st.received ++ [c] }, none)
  | .body =>
    if st.awaitLength = some (st.readLength + 1) then
      ({ msgStage := .header, readLength := 0, received := [],
         awaitLength := st.awaitLength }, some (st.received ++ [c]))
    else
      ({ st with readLength := st.readLength + 1, received := st.received ++ [c] }, none)

/-- The decoder entry point `onMessageReceived` (extension.ts lines
2170-2243): consume one chunk character by character, threading the decoder
state and collecting, in order, every completed body handed to
`interpretMessage(JSON.parse(received))` at line 2233.  The labelled
`mainwhile` loop of the source visits each character of `data` exactly once
in order, performing the per-character update `stepChar`. -/
def onMessageReceived (st : DecState) (data : List Char) : DecState × List (List Char) :=
  match data with
  | [] => (st, [])
  | c :: rest =>
    let p := stepChar st c
    let r := onMessageReceived p.1 rest
    (r.1, p.2.toList ++ r.2)

/-- Feeding a sequence of chunks one `onMessageReceived` call after
another, as the `data` events of the child process stdout do, collecting
all dispatched payloads in order. -/
def feedChunks (st : DecState) (chunks : List (List Char)) : DecState × List (List Char) :=
  match chunks with
  | [] => (st, [])
  | d :: rest =>
    let p := onMessageReceived st d
    let r := feedChunks p.1 rest
    (r.1, p.2 ++ r.2)

/-- The initial decoder state (extension.ts lines 2044-2048): stage 0,
counter 0, empty accumulator, `awaitLength` initialised to the number 0. -/
def initState : DecState := ⟨.header, 0, [], some 0⟩

/-- Decimal digits of a positive number, least significant first, as
characters; helper for the JavaScript number-to-string conversion used at
extension.ts line 2076.  The first argument is structural-recursion fuel;
any fuel of at least `n` yields the digits of `n`, since dividing by ten
shrinks a positive number and the fuel only ever decreases by one. -/
def natToStrAux : Nat → Nat → List Char
  | _, 0 => []
  | 0, _ + 1 => []
  | fuel + 1, n + 1 => Char.ofNat ((n + 1) % 10 + 48) :: natToStrAux fuel ((n + 1) / 10)

/-- JavaScript conversion of a nonnegative integer to its decimal string,
as performed by `"Content-Length: " + msgStr.length` at lines 2076, 2088
and 2101 of extension.ts. -/
def natToStr (n : Nat) : List Char :=
  if n = 0 then ['0'] else (natToStrAux n n).reverse

/-- The frame encoder shared by `sendRequest`, `sendNotification` and
`sendResponse` (extension.ts lines 2076, 2088, 2101): the serialized
message body prefixed by its Content-Length header with CRLF terminators,
`"Content-Length: " + msgStr.length + "\r\n\r\n" + msgStr`. -/
def encodeFrame (body : List Char) : List Char :=
  "Content-Length: ".data ++ natToStr body.length ++ "\r\n\r\n".data ++ body

/-- A JSON-RPC correlation id as used for `integer | string` ids
(extension.ts line 2057). -/
inductive RpcId
  | str (s : String)
  | int (n : Int)
deriving DecidableEq

/-- The `id` field of an inbound decoded payload, distinguishing a missing
field (`'id' in obj` is false, `obj.id` is `undefined`), a present field
holding JSON null, and a present string or integer value. -/
inductive IdField
  | absent
  | null
  | val (k : RpcId)
deriving DecidableEq

/-- An opaque JSON-like structured value standing for `params`, `result`
and `error.data` contents, which the transport core forwards without
inspecting. -/
inductive Json
  | null
  | bool (b : Bool)
  | num (n : Int)
  | str (s : String)
  | arr (xs : List Json)
  | obj (kvs : List (String × Json))

/-- The interface `lsp.ResponseError` (extension.ts lines 21-28) as built
by the dispatcher: an integer code and a message. -/
structure ResponseError where
  code : Int
  message : String

/-- The interface `ClientResponse` (extension.ts lines 2035-2039): what a
request handler returns, a result or an error. -/
structure ClientResponse where
  result : Option Json
  error : Option ResponseError

/-- An outgoing `lsp.ResponseMessage` as assembled by `sendResponse`
(extension.ts lines 2092-2103). -/
structure ResponseMessage where
  id : IdField
  jsonrpc : String
  result : Option Json
  error : Option ResponseError

/-- An `lsp.RequestMessage` as assembled by `sendRequest`
(extension.ts lines 2065-2078). -/
structure RequestMessage where
  id : RpcId
  jsonrpc : String
  method : String
  params : Option Json

/-- A decoded inbound JSON payload as seen by `interpretMessage`: the
fields the dispatcher inspects (`method`, `id`) with presence made
explicit, and the fields it forwards opaquely. -/
structure Payload where
  method : Option String
  id : IdField
  params : Option Json
  result : Option Json
  error : Option Json

/-- The constant `lsp.ErrorCodes.METHOD_NOT_FOUND` (extension.ts
line 43). -/
def METHOD_NOT_FOUND : Int := -32601

/-- Lookup in a JavaScript `Map`, modelled as an association list:
`Map.prototype.get`. -/
def mapGet {κ α : Type} [DecidableEq κ] : List (κ × α) → κ → Option α
  | [], _ => none
  | (k, v) :: rest, key => if k = key then some v else mapGet rest key

/-- Insertion into a JavaScript `Map`: `Map.prototype.set` replaces the
entry in place when the key exists and appends otherwise. -/
def mapSet {κ α : Type} [DecidableEq κ] : List (κ × α) → κ → α → List (κ × α)
  | [], key, v => [(key, v)]
  | (k, w) :: rest, key, v =>
    if k = key then (key, v) :: rest else (k, w) :: mapSet rest key v

/-- Deletion from a JavaScript `Map`: `Map.prototype.delete` removes the
entry with the given key. -/
def mapDelete {κ α : Type} [DecidableEq κ] : List (κ × α) → κ → List (κ × α)
  | [], _ => []
  | (k, w) :: rest, key =>
    if k = key then mapDelete rest key else (k, w) :: mapDelete rest key

/-- The pending-request ledger `pendingRequests` of extension.ts line 2057:
a map from correlation id to the original outgoing request. -/
abbrev Ledger := List (RpcId × RequestMessage)

/-- The three handler tables of extension.ts lines 2052-2055.  A
JavaScript handler can throw; this is modelled by the `Except Unit`
result. -/
structure Tables where
  requestListeners : List (String × (Option Json → Except Unit ClientResponse))
  notificationListeners : List (String × (Option Json → Except Unit Unit))
  responseListeners : List (String × (RequestMessage → Payload → Except Unit Bool))

/-- Observable actions performed by one `interpretMessage` dispatch, in
order: a response written to the server's stdin via `sendResponse`, a
request/notification handler or response callback invoked with its
arguments, an error popup via `vscode.window.showErrorMessage`, or a
`console.log`. -/
inductive Event
  | sentResponse (msg : ResponseMessage)
  | reqHandlerRun (method : String) (params : Option Json)
  | notifHandlerRun (method : String) (params : Option Json)
  | respCallbackRun (method : String) (request : RequestMessage) (response : Payload)
  | showError (msg : String)
  | consoleLog

/-- Result of one `interpretMessage` dispatch: the events in order, the
ledger afterwards, and whether an exception escaped the handler call and
rejected the async `interpretMessage` promise (the call at line 2233 is
not awaited, so such a rejection never propagates into the decoder
loop). -/
structure InterpretResult where
  events : List Event
  ledger : Ledger
  threw : Bool

/-- The message `sendResponse` builds and frames (extension.ts lines
2092-2103): it echoes the id of the request being answered. -/
def sendResponse (requestId : IdField) (result : Option Json)
    (error : Option ResponseError) : ResponseMessage :=
  { error := error, id := requestId, jsonrpc := "2.0", result := result }

/-- The function `sendRequest` (extension.ts lines 2065-2078): build a
request message carrying a fresh id (`randomUUID()`, modelled by the
`newId` argument), record it in the pending-request ledger, and hand the
serialized body to the frame encoder (`encodeFrame`) for transmission.
Returns the built message and the updated ledger. -/
def sendRequest (newId : RpcId) (method : String) (params : Option Json)
    (pending : Ledger) : RequestMessage × Ledger :=
  let msg : RequestMessage := { id := newId, jsonrpc := "2.0", method := method, params := params }
  (msg, mapSet pending msg.id msg)

/-- The dispatcher `interpretMessage` (extension.ts lines 2105-2168).
A payload with a `method` field is a request when it also has an `id`
field (present null included, since `'id' in obj` is true for null) and a
notification otherwise; a payload without `method` is a response.  JS
strict inequality `response.id !== null` holds for a missing id
(`undefined`), so a response with a missing id takes the ledger-lookup
branch, where `Map.get(undefined)` finds nothing. -/
def interpretMessage (tbl : Tables) (pending : Ledger) (obj : Payload) : InterpretResult :=
  match obj.method with
  | some m =>
    match obj.id with
    | .absent =>
      match mapGet tbl.notificationListeners m with
      | some fn =>
        match fn obj.params with
        | .ok _ => ⟨[.notifHandlerRun m obj.params], pending, false⟩
        | .error _ => ⟨[.notifHandlerRun m obj.params], pending, true⟩
      | none => ⟨[], pending, false⟩
    | idf =>
      match mapGet tbl.requestListeners m with
      | some fn =>
        match fn obj.params with
        | .ok cr =>
          ⟨[.reqHandlerRun m obj.params,
            .sentResponse (sendResponse idf cr.result cr.error)], pending, false⟩
        | .error _ => ⟨[.reqHandlerRun m obj.params], pending, true⟩
      | none =>
        ⟨[.sentResponse (sendResponse idf none
            (some ⟨METHOD_NOT_FOUND, "Method " ++ m ++ " not found."⟩))], pending, false⟩
  | none =>
    match obj.id with
    | .null => ⟨[.consoleLog, .showError "Missing id field form response."], pending, false⟩
    | .absent => ⟨[.showError "Pending request not found."], pending, false⟩
    | .val k =>
      match mapGet pending k with
      | some request =>
        match mapGet tbl.responseListeners request.method with
        | some fn =>
          match fn request obj with
          | .ok shouldRemove =>
            ⟨[.respCallbackRun request.method request obj],
             if shouldRemove then mapDelete pending k else pending, false⟩
          | .error _ => ⟨[.respCallbackRun request.method request obj], pending, true⟩
        | none => ⟨[], pending, false⟩
      | none => ⟨[.showError "Pending request not found."], pending, false⟩

section DecoderLemmas

/-- Processing a concatenation of two chunks in one call is the same as
processing them in two consecutive calls: the state threads through and
the payload lists concatenate. -/
lemma onMessageReceived_append (st : DecState) (a b : List Char) :
    onMessageReceived st (a ++ b)
      = ((onMessageReceived (onMessageReceived st a).1 b).1,
         (onMessageReceived st a).2 ++ (onMessageReceived (onMessageReceived st a).1 b).2) := by
  induction a generalizing st with
  | nil => simp [onMessageReceived]
  | cons c rest ih =>
    simp only [List.cons_append, onMessageReceived, List.append_eq]
    rw [ih (stepChar st c).1]
    simp [List.append_assoc]

/-- Feeding a list of chunks one call at a time is the same as feeding
their concatenation in a single call. -/
lemma feedChunks_join (st : DecState) (chunks : List (List Char)) :
    feedChunks st chunks = onMessageReceived st chunks.flatten := by
  induction chunks generalizing st with
  | nil => simp [feedChunks, onMessageReceived]
  | cons d rest ih =>
    simp only [feedChunks, List.flatten_cons]
    rw [onMessageReceived_append, ih]

/-- In the header stage, a run of characters containing no newline is
accumulated verbatim. -/
lemma scan_header (cs : List Char) (rl : Nat) (acc : List Char) (aw : Option Nat)
    (h : ∀ c ∈ cs, c ≠ '\n') :
    onMessageReceived ⟨.header, rl, acc, aw⟩ cs = (⟨.header, rl, acc ++ cs, aw⟩, []) := by
  induction cs generalizing acc with
  | nil => simp [onMessageReceived]
  | cons c rest ih =>
    have hc : c ≠ '\n' := h c (List.mem_cons_self c rest)
    simp only [onMessageReceived, stepChar, if_neg hc]
    rw [ih (acc ++ [c]) (fun c hc => h c (List.mem_cons_of_mem _ hc))]
    simp

/-- In the body stage, consuming a nonempty run of characters whose length
is exactly the number of still-owed characters emits the accumulated body
once and returns to the header stage with a cleared accumulator and
counter. -/
lemma scan_body (cs : List Char) (rl : Nat) (acc : List Char) (hne : cs ≠ []) :
    onMessageReceived ⟨.body, rl, acc, some (rl + cs.length)⟩ cs
      = (⟨.header, 0, [], some (rl + cs.length)⟩, [acc ++ cs]) := by
  induction cs generalizing rl acc with
  | nil => exact absurd rfl hne
  | cons c rest ih =>
    by_cases hrest : rest = []
    · subst hrest
      simp [onMessageReceived, stepChar]
    · have hlen : rest.length ≠ 0 := fun h => hrest (List.length_eq_zero.mp h)
      have hcond : ¬ (some (rl + (c :: rest).length) = some (rl + 1)) := by
        simp only [List.length_cons, Option.some.injEq]
        omega
      have harith : rl + (c :: rest).length = (rl + 1) + rest.length := by
        simp only [List.length_cons]
        omega
      simp only [onMessageReceived, stepChar, if_neg hcond]
      rw [harith, ih (rl + 1) (acc ++ [c]) hrest]
      simp [List.append_assoc]

/-- In the body stage with `awaitLength` equal to NaN, every character is
consumed and accumulated and nothing is ever emitted. -/
lemma scan_body_nan (cs : List Char) (rl : Nat) (acc : List Char) :
    onMessageReceived ⟨.body, rl, acc, none⟩ cs
      = (⟨.body, rl + cs.length, acc ++ cs, none⟩, []) := by
  induction cs generalizing rl acc with
  | nil => simp [onMessageReceived]
  | cons c rest ih =>
    have hcond : ¬ ((none : Option Nat) = some (rl + 1)) := by simp
    simp only [onMessageReceived, stepChar, if_neg hcond]
    rw [ih (rl + 1) (acc ++ [c])]
    have : rl + 1 + rest.length = rl + (rest.length + 1) := by omega
    simp [List.append_assoc, this]

/-- Substring extraction used by the header parse: dropping a 16-character
prefix and one trailing character from the accumulated header line. -/
lemma jsSubstring_extract (xs ys zs : List Char) :
    jsSubstring (xs ++ ys ++ zs) (xs.length : Int) ((xs.length : Int) + (ys.length : Int)) = ys := by
  unfold jsSubstring
  have hxn : (xs.length : Int) ≤ ((xs ++ ys ++ zs).length : Int) := by
    simp [List.length_append]; omega
  have hbn : (xs.length : Int) + (ys.length : Int) ≤ ((xs ++ ys ++ zs).length : Int) := by
    simp only [List.length_append]
    push_cast
    omega
  have h1 : min (xs.length : Int) ((xs ++ ys ++ zs).length : Int) = (xs.length : Int) :=
    min_eq_left hxn
  have h2 : min ((xs.length : Int) + (ys.length : Int)) ((xs ++ ys ++ zs).length : Int)
      = (xs.length : Int) + (ys.length : Int) := min_eq_left hbn
  simp only [h1, h2]
  have h3 : max (xs.length : Int) 0 = (xs.length : Int) := max_eq_left (by positivity)
  have h4 : max ((xs.length : Int) + (ys.length : Int)) 0 = (xs.length : Int) + (ys.length : Int) :=
    max_eq_left (by positivity)
  rw [h3, h4]
  have h5 : max (xs.length : Int) ((xs.length : Int) + (ys.length : Int))
      = (xs.length : Int) + (ys.length : Int) := max_eq_right (by omega)
  have h6 : min (xs.length : Int) ((xs.length : Int) + (ys.length : Int))
      = (xs.length : Int) := min_eq_left (by omega)
  rw [h5, h6]
  have h7 : ((xs.length : Int) + (ys.length : Int)).toNat = xs.length + ys.length := by
    omega
  have h8 : ((xs.length : Int)).toNat = xs.length := by omega
  rw [h7, h8]
  have h9 : (xs ++ ys ++ zs).take (xs.length + ys.length) = xs ++ ys :=
    List.take_left' (by simp)
  rw [h9, List.drop_left]

/-- Every digit value below ten yields a decimal digit character. -/
lemma digit_isDigit : ∀ d < 10, isDigitChar (Char.ofNat (d + 48)) = true := by decide

/-- Character code of a decimal digit character produced from a digit
value below ten. -/
lemma digit_toNat : ∀ d < 10, (Char.ofNat (d + 48)).toNat = d + 48 := by decide

/-- A decimal digit character is not a newline. -/
lemma digit_ne_lf (c : Char) (h : isDigitChar c = true) : c ≠ '\n' := by
  intro hc
  subst hc
  exact absurd h (by decide)

/-- Every character of `natToStrAux fuel n` is a decimal digit. -/
lemma natToStrAux_digits (fuel : Nat) : ∀ n, ∀ c ∈ natToStrAux fuel n, isDigitChar c = true := by
  induction fuel with
  | zero =>
    intro n c hc
    match n with
    | 0 => simp [natToStrAux] at hc
    | m + 1 => simp [natToStrAux] at hc
  | succ fuel ih =>
    intro n c hc
    match n with
    | 0 => simp [natToStrAux] at hc
    | m + 1 =>
      rw [natToStrAux] at hc
      rcases List.mem_cons.mp hc with h | h
      · subst h
        exact digit_isDigit ((m + 1) % 10) (Nat.mod_lt _ (by norm_num))
      · exact ih ((m + 1) / 10) c h

/-- Folding the digit-accumulation step over the digits of `n` recovers
`n`, shifted past any previously accumulated prefix value. -/
lemma digitsVal_aux (fuel : Nat) : ∀ n, n ≤ fuel → ∀ a : Nat,
    List.foldl (fun a c => a * 10 + (c.toNat - 48)) a (natToStrAux fuel n).reverse
      = a * 10 ^ (natToStrAux fuel n).length + n := by
  induction fuel with
  | zero =>
    intro n hn a
    have hz : n = 0 := Nat.le_zero.mp hn
    subst hz
    simp [natToStrAux]
  | succ fuel ih =>
    intro n hn a
    match n with
    | 0 => simp [natToStrAux]
    | m + 1 =>
      have hdiv : (m + 1) / 10 ≤ fuel :=
        Nat.le_of_lt_succ (Nat.lt_of_lt_of_le (Nat.div_lt_self (Nat.succ_pos m) (by norm_num)) hn)
      rw [natToStrAux, List.reverse_cons, List.foldl_concat]
      rw [ih ((m + 1) / 10) hdiv a]
      have hch : (Char.ofNat ((m + 1) % 10 + 48)).toNat - 48 = (m + 1) % 10 := by
        rw [digit_toNat ((m + 1) % 10) (Nat.mod_lt _ (by norm_num))]
        omega
      rw [hch]
      have hqr : (m + 1) / 10 * 10 + (m + 1) % 10 = m + 1 := by omega
      calc (a * 10 ^ (natToStrAux fuel ((m + 1) / 10)).length + (m + 1) / 10) * 10 + (m + 1) % 10
          = a * (10 ^ (natToStrAux fuel ((m + 1) / 10)).length * 10)
            + ((m + 1) / 10 * 10 + (m + 1) % 10) := by ring
        _ = a * 10 ^ (natToStrAux fuel ((m + 1) / 10)).length.succ + (m + 1) := by
            rw [hqr, pow_succ]
        _ = a * 10 ^ (Char.ofNat ((m + 1) % 10 + 48) :: natToStrAux fuel ((m + 1) / 10)).length
            + (m + 1) := by rw [List.length_cons]

/-- The decimal string of `n` coerces back to `n` under the JavaScript
unary plus: parsing is a left inverse of printing. -/
lemma jsToNumber_natToStr (n : Nat) : jsToNumber (natToStr n) = some n := by
  by_cases h : n = 0
  · subst h
    decide
  · unfold natToStr
    rw [if_neg h]
    unfold jsToNumber
    have hall : ((natToStrAux n n).reverse.all isDigitChar) = true := by
      rw [List.all_eq_true]
      intro c hc
      exact natToStrAux_digits n n c (List.mem_reverse.mp hc)
    rw [if_pos hall]
    unfold digitsVal
    rw [digitsVal_aux n n le_rfl 0]
    simp

/-- No character of the decimal string of `n` is a newline. -/
lemma natToStr_ne_lf (n : Nat) : ∀ c ∈ natToStr n, c ≠ '\n' := by
  intro c hc
  unfold natToStr at hc
  by_cases h : n = 0
  · subst h
    simp at hc
    subst hc
    decide
  · rw [if_neg h] at hc
    exact digit_ne_lf c (natToStrAux_digits n n c (List.mem_reverse.mp hc))

/-- Decoding one complete encoded frame from the start-of-header state
with empty accumulator and zeroed counter: the decoder emits exactly the
frame body and returns to the start-of-header state, with `awaitLength`
now holding the parsed body length. -/
lemma decode_frame (body : List Char) (hb : body ≠ []) (aw : Option Nat) :
    onMessageReceived ⟨.header, 0, [], aw⟩ (encodeFrame body)
      = (⟨.header, 0, [], some body.length⟩, [body]) := by
  have hsplit : encodeFrame body
      = ("Content-Length: ".data ++ natToStr body.length ++ ['\r'])
        ++ ('\n' :: '\r' :: '\n' :: body) := by
    simp [encodeFrame]
  rw [hsplit, onMessageReceived_append]
  have hpre : ∀ c ∈ "Content-Length: ".data, c ≠ '\n' := by decide
  have hhdr : ∀ c ∈ "Content-Length: ".data ++ natToStr body.length ++ ['\r'], c ≠ '\n' := by
    intro c hc
    rcases List.mem_append.mp hc with h | h
    · rcases List.mem_append.mp h with h1 | h1
      · exact hpre c h1
      · exact natToStr_ne_lf body.length c h1
    · simp at h
      subst h
      decide
  rw [scan_header _ _ _ _ hhdr]
  simp only [List.nil_append]
  have hstep1 : stepChar ⟨.header, 0,
      "Content-Length: ".data ++ natToStr body.length ++ ['\r'], aw⟩ '\n'
      = (⟨.headerEnd, 0, [], some body.length⟩, none) := by
    simp only [stepChar, if_pos rfl]
    have hlen : (("Content-Length: ".data ++ natToStr body.length ++ ['\r']).length : Int) - 1
        = (("Content-Length: ".data.length : Int) + ((natToStr body.length).length : Int)) := by
      simp only [List.length_append, List.length_cons, List.length_nil]
      push_cast
      omega
    have hcl : (contentLengthConst : Int) = ("Content-Length: ".data.length : Int) := by
      decide
    rw [hlen, hcl, jsSubstring_extract, jsToNumber_natToStr]
    simp
  rw [show ('\n' :: '\r' :: '\n' :: body) = '\n' :: ('\r' :: '\n' :: body) from rfl]
  simp only [onMessageReceived, hstep1]
  have hstep2 : stepChar ⟨.headerEnd, 0, [], some body.length⟩ '\r'
      = (⟨.headerEnd, 0, ['\r'], some body.length⟩, none) := by
    simp [stepChar]
  simp only [hstep2]
  have hstep3 : stepChar ⟨.headerEnd, 0, ['\r'], some body.length⟩ '\n'
      = (⟨.body, 0, [], some body.length⟩, none) := by
    simp [stepChar]
  simp only [hstep3]
  have := scan_body body 0 [] hb
  rw [Nat.zero_add] at this
  simp only [this]
  simp

end DecoderLemmas

section MapLemmas

/-- Lookup after insertion at the same key finds the inserted value. -/
lemma mapGet_mapSet_self {κ α : Type} [DecidableEq κ] (l : List (κ × α)) (k : κ) (v : α) :
    mapGet (mapSet l k v) k = some v := by
  induction l with
  | nil => simp [mapSet, mapGet]
  | cons kv rest ih =>
    obtain ⟨k1, w⟩ := kv
    by_cases h : k1 = k
    · subst h
      simp [mapSet, mapGet]
    · simp [mapSet, mapGet, h, ih]

/-- Lookup after insertion at a different key is unchanged. -/
lemma mapGet_mapSet_ne {κ α : Type} [DecidableEq κ] (l : List (κ × α)) (k k' : κ) (v : α)
    (h : k' ≠ k) : mapGet (mapSet l k v) k' = mapGet l k' := by
  have h' : ¬ k = k' := fun hh => h hh.symm
  induction l with
  | nil =>
    simp only [mapSet, mapGet]
    rw [if_neg h']
  | cons kv rest ih =>
    obtain ⟨k1, w⟩ := kv
    by_cases h1 : k1 = k
    · subst h1
      simp only [mapSet, if_pos rfl, mapGet]
      rw [if_neg h', if_neg h']
    · simp only [mapSet, if_neg h1, mapGet]
      by_cases h2 : k1 = k'
      · rw [if_pos h2, if_pos h2]
      · rw [if_neg h2, if_neg h2, ih]

/-- Lookup after deletion: gone at the deleted key, unchanged elsewhere. -/
lemma mapGet_mapDelete {κ α : Type} [DecidableEq κ] (l : List (κ × α)) (k k' : κ) :
    mapGet (mapDelete l k) k' = if k' = k then none else mapGet l k' := by
  induction l with
  | nil => simp [mapDelete, mapGet]
  | cons kv rest ih =>
    obtain ⟨k1, w⟩ := kv
    by_cases h1 : k1 = k
    · subst h1
      rw [mapDelete, if_pos rfl, ih]
      by_cases h2 : k' = k1
      · rw [if_pos h2, if_pos h2]
      · rw [if_neg h2, if_neg h2, mapGet, if_neg (fun hh => h2 hh.symm)]
    · rw [mapDelete, if_neg h1, mapGet, ih]
      by_cases h2 : k1 = k'
      · subst h2
        rw [if_pos rfl, if_neg (fun hh : k1 = k => h1 hh), mapGet, if_pos rfl]
      · rw [if_neg h2]
        by_cases h3 : k' = k
        · rw [if_pos h3, if_pos h3]
        · rw [if_neg h3, if_neg h3, mapGet, if_neg h2]

end MapLemmas

section DispatchLemmas

/-- Dispatch of a response whose id is found in the ledger, when a
response callback is registered for the original request's method and
returns normally: the callback runs once with the original request and the
response, and the entry is removed exactly when it returns `true`. -/
lemma interpret_response_found (tbl : Tables) (pending : Ledger) (k : RpcId)
    (req : RequestMessage) (pp pr pe : Option Json)
    (f : RequestMessage → Payload → Except Unit Bool) (b : Bool)
    (hpend : mapGet pending k = some req)
    (hf : mapGet tbl.responseListeners req.method = some f)
    (hret : f req ⟨none, .val k, pp, pr, pe⟩ = .ok b) :
    interpretMessage tbl pending ⟨none, .val k, pp, pr, pe⟩
      = ⟨[.respCallbackRun req.method req ⟨none, .val k, pp, pr, pe⟩],
         if b then mapDelete pending k else pending, false⟩ := by
  unfold interpretMessage
  dsimp only
  rw [hpend]
  dsimp only
  rw [hf]
  dsimp only
  rw [hret]

/-- Every dispatch leaves the ledger unchanged or deletes a single key:
`interpretMessage` never inserts into the pending-request ledger. -/
lemma interpret_ledger_shape (tbl : Tables) (pending : Ledger) (p : Payload) :
    (interpretMessage tbl pending p).ledger = pending
    ∨ ∃ k, (interpretMessage tbl pending p).ledger = mapDelete pending k := by
  obtain ⟨pm, pid, pp, pr, pe⟩ := p
  unfold interpretMessage
  dsimp only
  cases pm with
  | some m =>
    cases pid with
    | absent =>
      cases hg : mapGet tbl.notificationListeners m with
      | none => simp [hg]
      | some fn =>
        cases hf : fn pp with
        | ok u => simp [hg, hf]
        | error e => simp [hg, hf]
    | null =>
      cases hg : mapGet tbl.requestListeners m with
      | none => simp [hg]
      | some fn =>
        cases hf : fn pp with
        | ok cr => simp [hg, hf]
        | error e => simp [hg, hf]
    | val k =>
      cases hg : mapGet tbl.requestListeners m with
      | none => simp [hg]
      | some fn =>
        cases hf : fn pp with
        | ok cr => simp [hg, hf]
        | error e => simp [hg, hf]
  | none =>
    cases pid with
    | null => simp
    | absent => simp
    | val k =>
      cases hg : mapGet pending k with
      | none => simp [hg]
      | some req =>
        cases hf : mapGet tbl.responseListeners req.method with
        | none => simp [hg, hf]
        | some fn =>
          cases hr : fn req ⟨none, .val k, pp, pr, pe⟩ with
          | ok b =>
            cases b with
            | true => exact Or.inr ⟨k, by simp [hg, hf, hr]⟩
            | false => simp [hg, hf, hr]
          | error e => simp [hg, hf, hr]

/-- The well-formedness invariant of the pending-request ledger: every
entry maps a key to a stored request whose id field is that key. -/
def LedgerWF (l : Ledger) : Prop := ∀ k req, mapGet l k = some req → req.id = k

/-- Insertion of a request under its own id preserves the ledger
invariant. -/
lemma LedgerWF_mapSet (l : Ledger) (k : RpcId) (v : RequestMessage)
    (hl : LedgerWF l) (hv : v.id = k) : LedgerWF (mapSet l k v) := by
  intro k' r h
  by_cases hk : k' = k
  · subst hk
    rw [mapGet_mapSet_self] at h
    cases h
    exact hv
  · rw [mapGet_mapSet_ne l k k' v hk] at h
    exact hl k' r h

/-- Deletion preserves the ledger invariant. -/
lemma LedgerWF_mapDelete (l : Ledger) (k : RpcId) (hl : LedgerWF l) :
    LedgerWF (mapDelete l k) := by
  intro k' r h
  rw [mapGet_mapDelete] at h
  by_cases hk : k' = k
  · simp [hk] at h
  · rw [if_neg hk] at h
    exact hl k' r h

/-- One mutation of the pending-request ledger: either an outgoing
`sendRequest` or one `interpretMessage` dispatch. -/
inductive LedgerStep : Ledger → Ledger → Prop
  | send (newId : RpcId) (method : String) (params : Option Json) (l : Ledger) :
      LedgerStep l (sendRequest newId method params l).2
  | dispatch (tbl : Tables) (p : Payload) (l : Ledger) :
      LedgerStep l (interpretMessage tbl l p).ledger

/-- Ledger states reachable from the empty ledger by any interleaving of
`sendRequest` calls and `interpretMessage` dispatches. -/
def LedgerReachable (l : Ledger) : Prop := Relation.ReflTransGen LedgerStep [] l

/-- Each single ledger mutation preserves the well-formedness invariant. -/
lemma LedgerWF_step (l l' : Ledger) (h : LedgerStep l l') (hw : LedgerWF l) : LedgerWF l' := by
  cases h with
  | send newId method params => exact LedgerWF_mapSet l newId _ hw rfl
  | dispatch tbl p =>
    rcases interpret_ledger_shape tbl l p with hs | ⟨k, hs⟩
    · rw [hs]
      exact hw
    · rw [hs]
      exact LedgerWF_mapDelete l k hw

end DispatchLemmas

section Claims

/-- C1: every message framed by the transport's encoder (a serialized
message body prefixed with its Content-Length header), fed back into the
decoder entry point as one chunk or split into arbitrary consecutive
chunks at any offsets, dispatches exactly one decoded payload equal to the
original serialized message.  The dispatched payload is the exact body
text handed to `JSON.parse` at line 2233, so the parsed structure equals
the structure of the original serialized message.  The hypothesis that the
body is nonempty holds for every JSON serialization (always at least two
characters); `aw` generalizes the initial `awaitLength`, covering both the
fresh-start state (`some 0`) and the state left by earlier frames. -/
theorem C1_encode_decode_roundTrip (body : List Char) (hb : body ≠ [])
    (chunks : List (List Char)) (hsplit : chunks.flatten = encodeFrame body)
    (aw : Option Nat) :
    (feedChunks ⟨.header, 0, [], aw⟩ chunks).2 = [body] := by
  rw [feedChunks_join, hsplit, decode_frame body hb aw]

/-- Witness for C1 at a concrete frame split into four chunks, with the
splits falling inside the header, inside the CRLF separator and inside the
body. -/
theorem C1_witness :
    ("[1,2,3]".data ≠ []
      ∧ ["Content-Le".data, "ngth: 7\r".data, "\n\r\n[1,".data, "2,3]".data].flatten
          = encodeFrame "[1,2,3]".data)
    ∧ (feedChunks ⟨.header, 0, [], some 0⟩
        ["Content-Le".data, "ngth: 7\r".data, "\n\r\n[1,".data, "2,3]".data]).2
        = ["[1,2,3]".data] :=
  ⟨⟨by decide, by decide⟩,
    C1_encode_decode_roundTrip "[1,2,3]".data (by decide) _ (by decide) (some 0)⟩

/-- C2: after `sendRequest` assigns a fresh id and records the request in
the pending-request ledger, processing an inbound response carrying that
id invokes exactly the response callback registered under the request's
method name, passing it the original request and the response, and the id
is removed from the ledger exactly when the callback returns `true` and
kept when it returns `false`. -/
theorem C2_correlation (newId : RpcId) (method : String) (params : Option Json)
    (pending0 : Ledger) (tbl : Tables) (pp pr pe : Option Json)
    (f : RequestMessage → Payload → Except Unit Bool) (b : Bool)
    (hf : mapGet tbl.responseListeners method = some f)
    (hret : f (sendRequest newId method params pending0).1 ⟨none, .val newId, pp, pr, pe⟩
      = .ok b) :
    (interpretMessage tbl (sendRequest newId method params pending0).2
        ⟨none, .val newId, pp, pr, pe⟩).events
      = [.respCallbackRun method (sendRequest newId method params pending0).1
          ⟨none, .val newId, pp, pr, pe⟩]
    ∧ mapGet (interpretMessage tbl (sendRequest newId method params pending0).2
        ⟨none, .val newId, pp, pr, pe⟩).ledger newId
      = (if b then none else some (sendRequest newId method params pending0).1) := by
  have hpend : mapGet (sendRequest newId method params pending0).2 newId
      = some (sendRequest newId method params pending0).1 :=
    mapGet_mapSet_self pending0 newId _
  have hstep := interpret_response_found tbl (sendRequest newId method params pending0).2
    newId (sendRequest newId method params pending0).1 pp pr pe f b hpend hf hret
  rw [hstep]
  refine ⟨rfl, ?_⟩
  cases b with
  | true => simp [mapGet_mapDelete]
  | false => simpa using hpend

/-- Witness for C2 exercising both callback return values at the concrete
id "abc" and method "initialize". -/
theorem C2_witness :
    (mapGet (Tables.mk [] [] [("initialize", fun _ _ => Except.ok true)]).responseListeners
        "initialize" = some (fun _ _ => Except.ok true)
      ∧ (fun (_ : RequestMessage) (_ : Payload) => Except.ok (ε := Unit) true)
          (sendRequest (.str "abc") "initialize" none []).1
          ⟨none, .val (.str "abc"), none, some (Json.obj []), none⟩ = .ok true)
    ∧ (interpretMessage (Tables.mk [] [] [("initialize", fun _ _ => Except.ok true)])
          (sendRequest (.str "abc") "initialize" none []).2
          ⟨none, .val (.str "abc"), none, some (Json.obj []), none⟩).events
        = [.respCallbackRun "initialize" (sendRequest (.str "abc") "initialize" none []).1
            ⟨none, .val (.str "abc"), none, some (Json.obj []), none⟩]
    ∧ mapGet (interpretMessage (Tables.mk [] [] [("initialize", fun _ _ => Except.ok true)])
          (sendRequest (.str "abc") "initialize" none []).2
          ⟨none, .val (.str "abc"), none, some (Json.obj []), none⟩).ledger (.str "abc")
        = none :=
  have h := C2_correlation (.str "abc") "initialize" none []
    (Tables.mk [] [] [("initialize", fun _ _ => Except.ok true)])
    none (some (Json.obj [])) none (fun _ _ => Except.ok true) true rfl rfl
  ⟨⟨rfl, rfl⟩, h.1, h.2⟩

/-- C3: an inbound payload classified as a request (it has `method` and
`id`) whose method has no registered request handler produces exactly one
response echoing the request's id, whose error carries the
METHOD_NOT_FOUND code and the message "Method " followed by the offending
method name and " not found.", the ledger is untouched and no exception
escapes the dispatcher. -/
theorem C3_unknown_method (tbl : Tables) (pending : Ledger) (p : Payload) (m : String)
    (hm : p.method = some m) (hid : p.id ≠ .absent)
    (hnone : mapGet tbl.requestListeners m = none) :
    interpretMessage tbl pending p
      = ⟨[.sentResponse (sendResponse p.id none
          (some ⟨METHOD_NOT_FOUND, "Method " ++ m ++ " not found."⟩))], pending, false⟩ := by
  obtain ⟨pm, pid, pp, pr, pe⟩ := p
  dsimp only at hm hid ⊢
  subst hm
  unfold interpretMessage
  dsimp only
  cases pid with
  | absent => exact absurd rfl hid
  | null => rw [hnone]
  | val k => rw [hnone]

/-- Witness for C3 at the concrete unregistered method "foo/bar". -/
theorem C3_witness :
    ((⟨some "foo/bar", .val (.int 4), none, none, none⟩ : Payload).method = some "foo/bar"
      ∧ (⟨some "foo/bar", .val (.int 4), none, none, none⟩ : Payload).id ≠ .absent
      ∧ mapGet (Tables.mk [] [] []).requestListeners "foo/bar" = none)
    ∧ interpretMessage (Tables.mk [] [] []) [] ⟨some "foo/bar", .val (.int 4), none, none, none⟩
      = ⟨[.sentResponse (sendResponse (.val (.int 4)) none
          (some ⟨METHOD_NOT_FOUND, "Method foo/bar not found."⟩))], [], false⟩ :=
  ⟨⟨rfl, by decide, rfl⟩,
    C3_unknown_method (Tables.mk [] [] []) [] _ "foo/bar" rfl (by decide) rfl⟩

/-- C4 counterexample: the decoder does not treat a bare newline as an
adequate terminator.  The frame "Content-Length: 2\n\n[]" decodes to no
payload at all (the length parse drops the final digit, and the empty line
before the bare terminator fails the length-one test so the decoder stays
in HEADER_END), while the CRLF frame "Content-Length: 2\r\n\r\n[]" decodes
to the body; and in the HEADER_END stage with an empty accumulated line a
newline does not transition to BODY, contradicting the claim. -/
theorem C4_counterexample :
    ((onMessageReceived initState "Content-Length: 2\n\n[]".data).2 = []
      ∧ (onMessageReceived initState "Content-Length: 2\r\n\r\n[]".data).2 = ["[]".data])
    ∧ (stepChar ⟨.headerEnd, 0, [], some 2⟩ '\n').1.msgStage = .headerEnd := by
  exact ⟨⟨by decide, by decide⟩, by decide⟩

/-- C4 amended: in the HEADER_END stage a newline transitions to BODY only
when the accumulated line has length exactly one (the carriage return left
by a CRLF terminator); when the accumulated line is empty — a bare
terminator seen immediately — the decoder clears the line and stays in
HEADER_END, so frames whose header lines end in a bare newline are not
decoded like CRLF frames.  The body counter is left untouched by the
transition (it is zero there because each completed body resets it). -/
theorem C4_amended (st st' : DecState) (h : st.msgStage = .headerEnd)
    (hr : st.received = ['\r']) (h' : st'.msgStage = .headerEnd)
    (hr' : st'.received = []) :
    stepChar st '\n' = ({ st with msgStage := .body, received := [] }, none)
    ∧ stepChar st' '\n' = ({ st' with received := [] }, none) := by
  constructor
  · obtain ⟨s1, s2, s3, s4⟩ := st
    dsimp only at h hr
    subst h
    subst hr
    simp [stepChar]
  · obtain ⟨s1, s2, s3, s4⟩ := st'
    dsimp only at h' hr'
    subst h'
    subst hr'
    simp [stepChar]

/-- Witness for C4 amended at concrete HEADER_END states. -/
theorem C4_amended_witness :
    stepChar ⟨.headerEnd, 0, ['\r'], some 7⟩ '\n' = (⟨.body, 0, [], some 7⟩, none)
    ∧ stepChar ⟨.headerEnd, 0, [], some 7⟩ '\n' = (⟨.headerEnd, 0, [], some 7⟩, none) :=
  C4_amended ⟨.headerEnd, 0, ['\r'], some 7⟩ ⟨.headerEnd, 0, [], some 7⟩ rfl rfl rfl rfl

/-- C5: two complete frames placed back to back with no delimiter, fed to
the decoder in a single chunk, dispatch exactly the two decoded payloads
in frame order, and the decoder is back in the HEADER stage afterwards
(with cleared accumulator and body counter). -/
theorem C5_back_to_back (a b : List Char) (ha : a ≠ []) (hb : b ≠ []) (aw : Option Nat) :
    onMessageReceived ⟨.header, 0, [], aw⟩ (encodeFrame a ++ encodeFrame b)
      = (⟨.header, 0, [], some b.length⟩, [a, b]) := by
  rw [onMessageReceived_append, decode_frame a ha aw]
  dsimp only
  rw [decode_frame b hb (some a.length)]
  simp

/-- Witness for C5 at two concrete frames. -/
theorem C5_witness :
    ("[1]".data ≠ [] ∧ "[2,3]".data ≠ [])
    ∧ onMessageReceived ⟨.header, 0, [], some 0⟩
        (encodeFrame "[1]".data ++ encodeFrame "[2,3]".data)
      = (⟨.header, 0, [], some 5⟩, ["[1]".data, "[2,3]".data]) :=
  ⟨⟨by decide, by decide⟩,
    C5_back_to_back "[1]".data "[2,3]".data (by decide) (by decide) (some 0)⟩

/-- C6 counterexample: a stream whose header carries the non-numeric
length value "abc" does not surface any fatal transport error — the
decoder has no error channel at all — and instead keeps consuming input
silently: after the malformed header and the two following characters the
decoder sits in the BODY stage with `awaitLength` NaN, has emitted no
payload, and has swallowed the characters. -/
theorem C6_counterexample :
    onMessageReceived initState "Content-Length: abc\r\n\r\nXY".data
      = (⟨.body, 2, "XY".data, none⟩, []) := by decide

/-- C6 amended: a non-numeric length value parses to NaN; the decoder
still walks through HEADER_END into BODY and from then on consumes every
further character silently and indefinitely — the body counter never
equals NaN — emitting no payload and surfacing no error. -/
theorem C6_amended (extra : List Char) :
    onMessageReceived initState ("Content-Length: abc\r\n\r\n".data ++ extra)
      = (⟨.body, extra.length, extra, none⟩, []) := by
  rw [onMessageReceived_append]
  have h1 : onMessageReceived initState "Content-Length: abc\r\n\r\n".data
      = (⟨.body, 0, [], none⟩, []) := by decide
  rw [h1]
  dsimp only
  rw [scan_body_nan extra 0 []]
  simp

/-- C7 counterexample: a registered request handler that throws is not
converted into an internal-error response — no response is sent at all;
the exception escapes the dispatcher as a rejection of the async
`interpretMessage` promise (`threw = true`), contradicting the claim that
the dispatch boundary catches the failure and answers the caller. -/
theorem C7_counterexample :
    interpretMessage (Tables.mk [("m", fun _ => Except.error ())] [] []) []
        ⟨some "m", .val (.str "1"), none, none, none⟩
      = ⟨[.reqHandlerRun "m" none], [], true⟩ := rfl

/-- C7 amended: a throwing request or notification handler is not caught
by any dispatch boundary: no internal-error response is emitted for a
request and no anomaly is logged for a notification; the exception rejects
the async `interpretMessage` promise (which line 2233 never awaits, so it
cannot corrupt the decoder state), and the pending-request ledger is
unchanged — as it would be after a normal return, since request and
notification dispatch never touch it. -/
theorem C7_amended (tbl : Tables) (pending : Ledger) (p q : Payload) (m m' : String)
    (fn : Option Json → Except Unit ClientResponse) (nfn : Option Json → Except Unit Unit)
    (hm : p.method = some m) (hid : p.id ≠ .absent)
    (hfn : mapGet tbl.requestListeners m = some fn) (hthrow : fn p.params = .error ())
    (hm' : q.method = some m') (hid' : q.id = .absent)
    (hnfn : mapGet tbl.notificationListeners m' = some nfn)
    (hthrow' : nfn q.params = .error ()) :
    interpretMessage tbl pending p = ⟨[.reqHandlerRun m p.params], pending, true⟩
    ∧ interpretMessage tbl pending q = ⟨[.notifHandlerRun m' q.params], pending, true⟩ := by
  constructor
  · obtain ⟨pm, pid, pp, pr, pe⟩ := p
    dsimp only at hm hid hthrow ⊢
    subst hm
    unfold interpretMessage
    dsimp only
    cases pid with
    | absent => exact absurd rfl hid
    | null =>
      rw [hfn]
      dsimp only
      rw [hthrow]
    | val k =>
      rw [hfn]
      dsimp only
      rw [hthrow]
  · obtain ⟨qm, qid, qp, qr, qe⟩ := q
    dsimp only at hm' hid' hthrow' ⊢
    subst hm'
    subst hid'
    unfold interpretMessage
    dsimp only
    rw [hnfn]
    dsimp only
    rw [hthrow']

/-- Witness for C7 amended at concrete throwing handlers. -/
theorem C7_amended_witness :
    interpretMessage (Tables.mk [("a", fun _ => Except.error ())]
        [("b", fun _ => Except.error ())] []) []
        ⟨some "a", .val (.int 1), none, none, none⟩
      = ⟨[.reqHandlerRun "a" none], [], true⟩
    ∧ interpretMessage (Tables.mk [("a", fun _ => Except.error ())]
        [("b", fun _ => Except.error ())] []) []
        ⟨some "b", .absent, none, none, none⟩
      = ⟨[.notifHandlerRun "b" none], [], true⟩ :=
  C7_amended (Tables.mk [("a", fun _ => Except.error ())]
      [("b", fun _ => Except.error ())] []) []
    ⟨some "a", .val (.int 1), none, none, none⟩ ⟨some "b", .absent, none, none, none⟩
    "a" "b" (fun _ => Except.error ()) (fun _ => Except.error ())
    rfl (by decide) rfl rfl rfl rfl rfl rfl

/-- C8 counterexample: a response whose id matches a pending call whose
method has no registered response callback leaves the ledger exactly as it
was — the entry for "X" is still present afterwards — contradicting the
claim that the entry is removed. -/
theorem C8_counterexample :
    (interpretMessage (Tables.mk [] [] [])
        [(RpcId.str "X", ⟨.str "X", "2.0", "m", none⟩)]
        ⟨none, .val (.str "X"), none, none, none⟩).ledger
      = [(RpcId.str "X", ⟨.str "X", "2.0", "m", none⟩)]
    ∧ mapGet (interpretMessage (Tables.mk [] [] [])
        [(RpcId.str "X", ⟨.str "X", "2.0", "m", none⟩)]
        ⟨none, .val (.str "X"), none, none, none⟩).ledger (.str "X")
      = some ⟨.str "X", "2.0", "m", none⟩ :=
  ⟨rfl, rfl⟩

/-- C8 amended: when the id of an inbound response matches a pending call
but no response callback is registered under the original request's
method, the dispatch does nothing at all — the pending entry is kept (the
`if (fn !== undefined)` at line 2148 has no else branch), no handler runs,
and no report is produced. -/
theorem C8_amended (tbl : Tables) (pending : Ledger) (p : Payload) (k : RpcId)
    (req : RequestMessage) (hm : p.method = none) (hid : p.id = .val k)
    (hpend : mapGet pending k = some req)
    (hnone : mapGet tbl.responseListeners req.method = none) :
    interpretMessage tbl pending p = ⟨[], pending, false⟩ := by
  obtain ⟨pm, pid, pp, pr, pe⟩ := p
  dsimp only at hm hid ⊢
  subst hm
  subst hid
  unfold interpretMessage
  dsimp only
  rw [hpend]
  dsimp only
  rw [hnone]

/-- Witness for C8 amended at the concrete pending id "X". -/
theorem C8_amended_witness :
    interpretMessage (Tables.mk [] [] [])
        [(RpcId.str "X", ⟨.str "X", "2.0", "m", none⟩)]
        ⟨none, .val (.str "X"), none, none, none⟩
      = ⟨[], [(RpcId.str "X", ⟨.str "X", "2.0", "m", none⟩)], false⟩ :=
  C8_amended (Tables.mk [] [] []) [(RpcId.str "X", ⟨.str "X", "2.0", "m", none⟩)]
    ⟨none, .val (.str "X"), none, none, none⟩ (.str "X") ⟨.str "X", "2.0", "m", none⟩
    rfl rfl rfl rfl

/-- C9 counterexample: a response whose id field is missing entirely is
not reported as a server-side fault: JavaScript's `response.id !== null`
holds for `undefined`, so the payload takes the ledger-lookup branch,
finds nothing, and is reported with the unknown-id message "Pending
request not found." instead of the distinct fault report, contradicting
the claim for the missing-id half. -/
theorem C9_counterexample :
    (interpretMessage (Tables.mk [] [] []) [] ⟨none, .absent, none, none, none⟩).events
      = [.showError "Pending request not found."] := rfl

/-- C9 amended: only a response whose id is present and null is reported
as the server-side fault notification ("Missing id field form response.",
with the raw object logged), distinctly from the unknown-id report; a
response whose id field is missing entirely falls into the unknown-id path
and is reported as "Pending request not found.".  Neither is silently
dropped. -/
theorem C9_amended (tbl : Tables) (pending : Ledger) (p q : Payload)
    (hm : p.method = none) (hid : p.id = .null)
    (hm' : q.method = none) (hid' : q.id = .absent) :
    interpretMessage tbl pending p
      = ⟨[.consoleLog, .showError "Missing id field form response."], pending, false⟩
    ∧ interpretMessage tbl pending q
      = ⟨[.showError "Pending request not found."], pending, false⟩ := by
  constructor
  · obtain ⟨pm, pid, pp, pr, pe⟩ := p
    dsimp only at hm hid ⊢
    subst hm
    subst hid
    rfl
  · obtain ⟨qm, qid, qp, qr, qe⟩ := q
    dsimp only at hm' hid' ⊢
    subst hm'
    subst hid'
    rfl

/-- Witness for C9 amended at concrete null-id and missing-id payloads. -/
theorem C9_amended_witness :
    interpretMessage (Tables.mk [] [] []) [] ⟨none, .null, none, none, none⟩
      = ⟨[.consoleLog, .showError "Missing id field form response."], [], false⟩
    ∧ interpretMessage (Tables.mk [] [] []) [] ⟨none, .absent, some (Json.num 3), none, none⟩
      = ⟨[.showError "Pending request not found."], [], false⟩ :=
  C9_amended (Tables.mk [] [] []) [] ⟨none, .null, none, none, none⟩
    ⟨none, .absent, some (Json.num 3), none, none⟩ rfl rfl rfl rfl

/-- C10: in every ledger state reachable from the empty ledger by any
interleaving of `sendRequest` calls and `interpretMessage` dispatches,
every entry maps its key to a stored request whose id field equals that
key: `sendRequest` inserts the freshly built message under its own id, and
dispatch only ever deletes entries. -/
theorem C10_ledger_invariant (l : Ledger) (h : LedgerReachable l) : LedgerWF l := by
  induction h with
  | refl =>
    intro k r hk
    simp [mapGet] at hk
  | tail _ step ih => exact LedgerWF_step _ _ step ih

/-- Witness for C10 at the ledger reached by one concrete `sendRequest`. -/
theorem C10_witness :
    LedgerReachable (sendRequest (.str "abc") "initialize" none []).2
    ∧ LedgerWF (sendRequest (.str "abc") "initialize" none []).2 :=
  have hr : LedgerReachable (sendRequest (.str "abc") "initialize" none []).2 :=
    Relation.ReflTransGen.single (LedgerStep.send (.str "abc") "initialize" none [])
  ⟨hr, C10_ledger_invariant _ hr⟩

end Claims

end FModSilo
